import Mathlib

/-!
Shallow embedding of the Carcara-Site inventory API (`src/app.py`) and
verification of the frozen claims about it.

The embedding models:
  * `get_next_id` / `generate_next_alphanumeric_id` — the ID allocator,
    including a faithful model of CPython `float()` parsing (correctly
    rounded decimal-to-binary64 conversion, on the digits-and-dots strings
    the allocator feeds it) and `int()` truncation;
  * the search filter of the `/pecas` GET handler over worksheet rows whose cell
    values may be strings or numbers;
  * the POST/PUT/DELETE handlers as effect-trace producers (each external
    spreadsheet call is recorded as an explicit effect);
  * the two in-process caches (worksheet-handle dictionaries and the
    flask-caching response cache) as a small world-state model.

Python exceptions are modelled with `Except`: the body of each `try:` block
is a function into `Except PyErr _`, and the `except:` clause is the
explicit handler wrapped around it.
-/

set_option maxRecDepth 16000
set_option exponentiation.threshold 2000

/-- Python exception kinds that can arise in the modelled code paths. -/
inductive PyErr where
  | valueError      -- float() on a malformed literal
  | overflowError   -- int() on an infinite float
  | attributeError  -- .lower() on a non-string cell value
  | emptySeqError   -- max() of an empty sequence
  deriving DecidableEq, Repr

/-! ## Decimal digits and strings -/

/-- Numeric value of an ASCII digit character. -/
def digitVal (c : Char) : ℕ := c.toNat - 48

/-- Value of a big-endian list of decimal digit characters
(Python `int` applied to a digit string). -/
def digitsToNat (l : List Char) : ℕ := l.foldl (fun a c => 10 * a + digitVal c) 0

/-- Digit character of a value `< 10`. -/
def digitChar (n : ℕ) : Char := Char.ofNat (48 + n)

/-- Big-endian decimal digits of `n`, via fuel-bounded recursion
(the fuel `f` bounds the number of divisions by 10). -/
def natDigitsAux : ℕ → ℕ → List Char
  | 0, _ => []
  | f + 1, n =>
    if n < 10 then [digitChar n]
    else natDigitsAux f (n / 10) ++ [digitChar (n % 10)]

/-- Python `str` on a natural number: canonical decimal rendering. -/
def natToDecimal (n : ℕ) : String := String.mk (natDigitsAux (n + 1) n)

/-- Python `str` on an integer. -/
def intToDecimal (i : ℤ) : String :=
  if i < 0 then "-" ++ natToDecimal (-i).toNat else natToDecimal i.toNat

/-- Python zero-padded formatting with the 03d format spec: decimal
rendering left-padded with zeros to width 3. -/
def pad3 (n : ℕ) : String :=
  let d := natToDecimal n
  String.mk (List.replicate (3 - d.length) '0') ++ d

/-- Whether `nd` occurs at the front of `hay`. -/
def listHasPre : List Char → List Char → Bool
  | [], _ => true
  | _ :: _, [] => false
  | c :: cs, h :: hs => c = h && listHasPre cs hs

/-- Whether `nd` occurs as a contiguous subsequence of `hay`
(the Python string containment test `nd in hay`). -/
def listHasSub : List Char → List Char → Bool
  | nd, [] => nd.isEmpty
  | nd, h :: hs => listHasPre nd (h :: hs) || listHasSub nd hs

/-- Python `s.lower()` on the ASCII strings this service handles. -/
def strLower (s : String) : String := String.mk (s.toList.map Char.toLower)

/-- Python `needle in hay` on strings. -/
def strHasSub (needle hay : String) : Bool := listHasSub needle.toList hay.toList

/-- Python `s.replace('.', '')`. -/
def stripDots (s : String) : String := String.mk (s.toList.filter (· ≠ '.'))

/-- Python `s.isdigit()` for the ASCII strings in play:
non-empty and all characters decimal digits. -/
def pyIsDigit (s : String) : Bool := !s.toList.isEmpty && s.toList.all Char.isDigit

/-! ## CPython `float()` and `int()` on the inputs the allocator produces

`get_next_id` only calls `float` on identifier strings whose non-`'.'`
characters are all decimal digits (that is the guard
`id_val.replace('.', '').isdigit()`), so the model covers exactly the
digits-and-dots fragment of the float literal grammar.  CPython converts
such a literal to the nearest IEEE-754 binary64 value, ties to even,
overflowing to `inf`; `int()` then truncates, raising `OverflowError` on
`inf`.  All values in this fragment are nonnegative, so a float is either
`inf` or a nonnegative value carried as an exact (unreduced) fraction of
naturals. -/

/-- A binary64 value arising from parsing digits-and-dots literals:
either a finite nonnegative value `a / b` (`b > 0`, fraction not
necessarily reduced) or `inf`. -/
inductive PFloat where
  | finite (a b : ℕ)
  | inf
  deriving DecidableEq, Repr

/-- Number of bits of `n` (`⌊log₂ n⌋ + 1` for `n > 0`, `0` for `0`),
via fuel-bounded recursion. -/
def natBitsAux : ℕ → ℕ → ℕ
  | 0, _ => 0
  | f + 1, n => if n = 0 then 0 else natBitsAux f (n / 2) + 1

/-- Number of bits of `n`. -/
def natBits (n : ℕ) : ℕ := natBitsAux n n

/-- `⌊log₂ (a / b)⌋` for `a, b > 0`. -/
def floorLog2 (a b : ℕ) : ℤ :=
  let c : ℤ := (natBits a : ℤ) - (natBits b : ℤ)
  -- `a / b < 2 ^ c` decided by cross-multiplication
  let lt : Bool :=
    if 0 ≤ c then decide (a < 2 ^ c.toNat * b) else decide (a * 2 ^ (-c).toNat < b)
  if lt then c - 1 else c

/-- Round `n / d` (`d > 0`) to the nearest integer, ties to even. -/
def rndHalfEven (n d : ℕ) : ℕ :=
  let m0 := n / d
  let r2 := 2 * (n % d)
  if r2 < d then m0
  else if d < r2 then m0 + 1
  else if m0 % 2 = 0 then m0 else m0 + 1

/-- Correctly round the exact nonnegative rational `a / b` (`b > 0`) to
binary64: result is `inf`, or a finite value given as an exact fraction. -/
def roundB64 (a b : ℕ) : PFloat :=
  if a = 0 then .finite 0 1
  else
    let k := floorLog2 a b
    if k < -1022 then
      -- subnormal range: fixed scale 2 ^ (-1074)
      .finite (rndHalfEven (a * 2 ^ 1074) b) (2 ^ 1074)
    else
      -- scale into [2^52, 2^53), round the 53-bit significand
      let z : ℤ := 52 - k
      let sn := if 0 ≤ z then a * 2 ^ z.toNat else a
      let sd := if 0 ≤ z then b else b * 2 ^ (-z).toNat
      let m := rndHalfEven sn sd
      let vn := if 0 ≤ k - 52 then m * 2 ^ (k - 52).toNat else m
      let vd := if 0 ≤ k - 52 then 1 else 2 ^ (52 - k).toNat
      if 2 ^ 1024 * vd ≤ vn then .inf else .finite vn vd

/-- CPython `float()` on a string of digits and at most one dot (the only
strings the allocator passes it, by its `isdigit` guard); any other input
in the digits-and-dots charset raises `ValueError`. -/
def pyFloat (s : String) : Except PyErr PFloat :=
  let l := s.toList
  let dots := (l.filter (· = '.')).length
  let digs := l.filter Char.isDigit
  if dots ≤ 1 ∧ ¬digs.isEmpty then
    let before := l.takeWhile (· ≠ '.')
    let after := (l.dropWhile (· ≠ '.')).drop 1
    .ok (roundB64 (digitsToNat (before ++ after)) (10 ^ after.length))
  else
    .error .valueError

/-- Python `<` on the modelled floats (cross-multiplication on exact
fractions; `inf` above every finite value). -/
def pfLt : PFloat → PFloat → Bool
  | .finite a b, .finite c d => decide (a * d < c * b)
  | .finite _ _, .inf => true
  | .inf, _ => false

/-- Python `max()` over a list of floats: raises on the empty list, else
folds keeping the current value unless a later one is strictly greater. -/
def pyMaxPF : List PFloat → Except PyErr PFloat
  | [] => .error .emptySeqError
  | f :: fs => .ok (fs.foldl (fun acc x => if pfLt acc x then x else acc) f)

/-- Python `int()` on a float: truncates toward zero (= floor here, all
values nonnegative); raises `OverflowError` on `inf`. -/
def pyIntOfFloat : PFloat → Except PyErr ℕ
  | .finite a b => .ok (a / b)
  | .inf => .error .overflowError

/-! ## The ID allocator (`get_next_id`, `generate_next_alphanumeric_id`) -/

/-- The maximal run of digit characters at the end of `s`
(what the regex search for a trailing digit group captures; empty when
`s` does not end in a digit). -/
def trailingRun (s : String) : List Char :=
  ((s.toList.reverse.takeWhile Char.isDigit)).reverse

/-- Model of `re.search` with the trailing-digit-group pattern: the
numeric value of the trailing digit run of `s`, when there is one. -/
def trailingNum (s : String) : Option ℕ :=
  let r := trailingRun s
  if r.isEmpty then none else some (digitsToNat r)

/-- Model of `re.match` with the non-greedy leading-group-then-digits
pattern: the group-1 capture.  The non-greedy first group makes the
match, when it exists, use the shortest non-empty leading part whose
(non-empty) remainder is all digits: the string minus its maximal
trailing digit run, except that an all-digits string keeps its first
character as the leading part.  No match when `s` does not end in a
digit or has fewer than 2 characters. -/
def pfxMatch (s : String) : Option String :=
  let r := (trailingRun s).length
  if r = 0 ∨ s.length < 2 then none
  else some (String.mk (s.toList.take (max 1 (s.length - r))))

/-- `generate_next_alphanumeric_id` (its `try:` body; the body is total,
so the `except:` clause is unreachable and the function returns the value
of the body). -/
def generate_next_alphanumeric_id (existing_ids : List String) : String :=
  let max_num := existing_ids.foldl
    (fun acc s => match trailingNum s with
      | some n => if acc < n then n else acc
      | none => acc) 0
  if max_num = 0 then "FRS-001"
  else
    let pfx := (existing_ids.findSome? pfxMatch).getD "FRS"
    pfx ++ pad3 (max_num + 1)

/-- The header-stripping and empty-filtering at the top of `get_next_id`:
drop a leading `"ID"` header cell, keep the non-empty (truthy) ID strings. -/
def pyExistingIds (coluna_ids : List String) : List String :=
  let col := match coluna_ids with
    | c :: rest => if c = "ID" then rest else coluna_ids
    | [] => coluna_ids
  col.filter (· ≠ "")

/-- The guard `id_val.replace('.', '').isdigit()`. -/
def strippedIsDigit (s : String) : Bool := pyIsDigit (stripDots s)

/-- The `try:` body of `get_next_id`, over the first worksheet column:
strip the header, drop blanks, return "1" on an empty set, classify, and
either run the numeric float/max/truncate pipeline (whose steps can
raise) or delegate to the alphanumeric helper. -/
def getNextIdBody (coluna_ids : List String) : Except PyErr String :=
  let existing_ids := pyExistingIds coluna_ids
  if existing_ids.isEmpty then .ok "1"
  else if existing_ids.all strippedIsDigit then
    match (existing_ids.filter strippedIsDigit).mapM pyFloat with
    | .error e => .error e
    | .ok numeric_ids =>
      match pyMaxPF numeric_ids with
      | .error e => .error e
      | .ok m =>
        match pyIntOfFloat m with
        | .error e => .error e
        | .ok i => .ok (natToDecimal (i + 1))
  else .ok (generate_next_alphanumeric_id existing_ids)

/-- `get_next_id`: the body with its `except Exception:` handler, which
logs and returns `"1"`. -/
def get_next_id (coluna_ids : List String) : String :=
  match getNextIdBody coluna_ids with
  | .ok s => s
  | .error _ => "1"


/-! ## Worksheet rows and the request handlers

Rows come from `worksheet.get_all_records()`: one mapping per data row,
keyed by the fixed eight headers.  A cell value can be a string or a
number (gspread converts numeric-looking cells), which is what makes the
search filter fallible. -/

/-- A cell value as produced by `get_all_records`. -/
inductive PyVal where
  | str (s : String)
  | int (n : ℤ)
  deriving DecidableEq, Repr

/-- Python `str(v)` on a cell value. -/
def pyStrOf : PyVal → String
  | .str s => s
  | .int n => intToDecimal n

/-- Python `v.lower()` on a cell value: defined on strings, raises
`AttributeError` on anything else. -/
def pyLowerVal : PyVal → Except PyErr String
  | .str s => .ok (strLower s)
  | .int _ => .error .attributeError

/-- One worksheet record with the fixed eight headers. -/
structure Row where
  idv : PyVal          -- header "ID"
  peca : PyVal
  quantidade : PyVal
  material : PyVal
  massa : PyVal        -- header "massa(g)"
  valor : PyVal        -- header "valor($)"
  descricao : PyVal
  fornecedor : PyVal
  deriving DecidableEq, Repr

/-- The search test of `get_pecas` for one row, with `b` the lowercased
query: the five membership tests combined by short-circuiting `or`, the
ID stringified first, every other field lowercased directly (raising on a
non-string cell). -/
def rowMatches (b : String) (p : Row) : Except PyErr Bool := do
  if strHasSub b (strLower (pyStrOf p.idv)) then return true
  if strHasSub b (← pyLowerVal p.peca) then return true
  if strHasSub b (← pyLowerVal p.material) then return true
  if strHasSub b (← pyLowerVal p.descricao) then return true
  return strHasSub b (← pyLowerVal p.fornecedor)

/-- The filtering loop of `get_pecas`: build `dados_filtrados` by
appending every matching row, in order; the first exception raised by a
match test aborts the loop. -/
def filterPecas (b : String) : List Row → Except PyErr (List Row)
  | [] => .ok []
  | p :: rows =>
    match rowMatches b p with
    | .error e => .error e
    | .ok m =>
      match filterPecas b rows with
      | .error e => .error e
      | .ok rest => .ok (if m then p :: rest else rest)

/-- The body of `get_pecas` after the rows have been fetched: apply the
filter when the query is non-empty (truthy), with the query lowercased
once. -/
def getPecasBody (rows : List Row) (busca : String) : Except PyErr (List Row) :=
  if busca = "" then pure rows
  else filterPecas (strLower busca) rows

/-- HTTP-level responses of the modelled handlers. -/
inductive PyResp where
  | pecasOk (pagina : String) (total : ℕ) (dados : List Row)  -- 200 on GET
  | created (id : String)                                     -- 201 on POST
  | okMsg                                                     -- 200 on PUT/DELETE
  | badRequest                                                -- 400
  | notFound                                                  -- 404
  | internalError                                             -- 500
  deriving DecidableEq, Repr

/-- The `get_pecas` handler over already-fetched rows: 200 with the
(possibly filtered) rows, count and page name; the generic
`except Exception` clause turns any filter failure into the 500
internal-error response.  (The worksheet-not-found and upstream-API
branches concern the external store and are outside this function.) -/
def get_pecas (pagina : String) (rows : List Row) (busca : String) : PyResp :=
  match getPecasBody rows busca with
  | .ok d => .pecasOk pagina d.length d
  | .error _ => .internalError

/-- External tabular-store calls a handler can make, in order. -/
inductive Effect where
  | openSpreadsheet
  | worksheetLookup (name : String)
  | colValues (col : ℕ)
  | getAllRecords
  | appendRow (cells : List PyVal)
  | updateCell (row col : ℕ) (v : PyVal)
  | deleteRows (row : ℕ)
  deriving DecidableEq, Repr

/-- A parsed JSON request body: the `categoria` field plus the remaining
part fields as key/value pairs. -/
structure ReqBody where
  categoria : Option String
  fields : List (String × PyVal)
  deriving DecidableEq, Repr

/-- Python falsiness of `data.get('categoria')`: missing or empty. -/
def falsyCat : Option String → Bool
  | none => true
  | some s => s.isEmpty

/-- Python `data.get(k, '')` over the non-categoria part fields. -/
def bodyGet (d : ReqBody) (k : String) : PyVal :=
  (d.fields.lookup k).getD (.str "")

/-- The fixed eight-field row assembled by the create handler
(`nova_peca`), in header order, with the freshly allocated ID first. -/
def novaPeca (next_id : String) (d : ReqBody) : List PyVal :=
  [.str next_id, bodyGet d "peca", bodyGet d "quantidade", bodyGet d "material",
   bodyGet d "massa(g)", bodyGet d "valor($)", bodyGet d "descricao",
   bodyGet d "fornecedor"]

/-- The `adicionar_peca` (POST) handler: validate body and categoria
locally, then open the spreadsheet, look the worksheet up, read its ID
column (the input `col`), allocate the next ID and append the new row.
Returns the response and the trace of external-store calls. -/
def adicionar_peca (body : Option ReqBody) (col : List String) :
    PyResp × List Effect :=
  match body with
  | none => (.badRequest, [])
  | some d =>
    if falsyCat d.categoria then (.badRequest, [])
    else
      let cat := d.categoria.getD ""
      let next := get_next_id col
      (.created next,
       [.openSpreadsheet, .worksheetLookup cat, .colValues 1,
        .appendRow (novaPeca next d)])

/-- The row-lookup loop shared by PUT/DELETE: the 1-based sheet row index
(starting at 2, after the header) of the first record whose stringified
ID equals the path id. -/
def findLinhaAux (pecaId : String) : List Row → ℕ → Option ℕ
  | [], _ => none
  | r :: rs, i => if pyStrOf r.idv = pecaId then some i else findLinhaAux pecaId rs (i + 1)

/-- Sheet row index of the record matching the path id, if any. -/
def findLinha (pecaId : String) (records : List Row) : Option ℕ :=
  findLinhaAux pecaId records 2

/-- The seven updatable field names, in the order the PUT handler walks
them. -/
def campos : List String :=
  ["peca", "quantidade", "material", "massa(g)", "valor($)", "descricao", "fornecedor"]

/-- The `col_indices` sheet-column mapping of the PUT handler. -/
def colIndex (campo : String) : ℕ :=
  if campo = "ID" then 1
  else if campo = "peca" then 2
  else if campo = "quantidade" then 3
  else if campo = "material" then 4
  else if campo = "massa(g)" then 5
  else if campo = "valor($)" then 6
  else if campo = "descricao" then 7
  else if campo = "fornecedor" then 8
  else 0

/-- The `atualizar_peca` (PUT) handler over already-parsed records:
validate locally, then open/lookup/read, find the target row, and issue
one `update_cell` per field present in the body. -/
def atualizar_peca (body : Option ReqBody) (pecaId : String)
    (records : List Row) : PyResp × List Effect :=
  match body with
  | none => (.badRequest, [])
  | some d =>
    if falsyCat d.categoria then (.badRequest, [])
    else
      let cat := d.categoria.getD ""
      let base := [Effect.openSpreadsheet, .worksheetLookup cat, .getAllRecords]
      match findLinha pecaId records with
      | none => (.notFound, base)
      | some li =>
        let writes := campos.filterMap fun c =>
          (d.fields.lookup c).map fun v => Effect.updateCell li (colIndex c) v
        (.okMsg, base ++ writes)

/-- The `deletar_peca` (DELETE) handler over already-parsed records. -/
def deletar_peca (body : Option ReqBody) (pecaId : String)
    (records : List Row) : PyResp × List Effect :=
  match body with
  | none => (.badRequest, [])
  | some d =>
    if falsyCat d.categoria then (.badRequest, [])
    else
      let cat := d.categoria.getD ""
      let base := [Effect.openSpreadsheet, .worksheetLookup cat, .getAllRecords]
      match findLinha pecaId records with
      | none => (.notFound, base)
      | some li => (.okMsg, base ++ [.deleteRows li])

/-- Apply one external-store effect to a worksheet grid (list of rows of
cells, sheet row 1 being the header). -/
def applyEffect (g : List (List PyVal)) : Effect → List (List PyVal)
  | .appendRow cells => g ++ [cells]
  | .updateCell r c v =>
    g.modify (fun row => row.set (c - 1) v) (r - 1)
  | .deleteRows r => g.eraseIdx (r - 1)
  | _ => g

/-- Apply a trace of effects to a worksheet grid. -/
def applyEffects (g : List (List PyVal)) (fx : List Effect) : List (List PyVal) :=
  fx.foldl applyEffect g

/-! ## The two caches, as a world-state model

`worksheet_cache` / `worksheet_cache_time` memoize worksheet handles for
300 seconds, keyed by spreadsheet id + worksheet name; write handlers
delete the key of the affected categoria from both after a successful
mutation.  Separately, `get_pecas` is wrapped in flask-caching
(`@cache.cached(timeout=10, query_string=True)`), which memoizes the full
response per (pagina, busca) for 10 seconds and is never explicitly
invalidated.  A worksheet handle is modelled by the worksheet name. -/

/-- The dictionary key built from the spreadsheet id, an underscore and
the worksheet name, for the one hardcoded spreadsheet. -/
def cacheKey (cat : String) : String :=
  "1vmIKVDCVs-KbINHRUnVlyyQVE-5JXV4rIme8dJB-keI_" ++ cat

/-- World state: the remote sheets plus the three in-process caches.
`respCache` stores the cached response together with its expiry time. -/
structure World where
  sheets : List (String × List Row)
  wsCache : List (String × String)
  wsCacheTime : List (String × ℕ)
  respCache : List ((String × String) × (PyResp × ℕ))
  deriving DecidableEq, Repr

/-- Insert (or replace) an association-list entry. -/
def alInsert {α β : Type} [DecidableEq α] (l : List (α × β)) (k : α) (v : β) :
    List (α × β) :=
  (k, v) :: l.filter (fun kv => kv.1 ≠ k)

/-- Delete every entry with key `k` (Python `del dict[k]`, guarded by
`if k in dict`). -/
def alErase {α β : Type} [DecidableEq α] (l : List (α × β)) (k : α) :
    List (α × β) :=
  l.filter (fun kv => kv.1 ≠ k)

/-- Model of `get_cached_worksheet` at time `now`: a cache hit younger
than 300 seconds leaves the world unchanged; otherwise the handle is
fetched and both dictionaries are refreshed.  (The handle itself is the
worksheet name, so only the caching side effect is modelled; the caller
checks separately that the worksheet exists.) -/
def wsCacheFetch (w : World) (cat : String) (now : ℕ) : World :=
  let key := cacheKey cat
  match w.wsCache.lookup key, w.wsCacheTime.lookup key with
  | some _, some t =>
    if now - t < 300 then w
    else { w with wsCache := alInsert w.wsCache key cat,
                  wsCacheTime := alInsert w.wsCacheTime key now }
  | _, _ =>
    { w with wsCache := alInsert w.wsCache key cat,
             wsCacheTime := alInsert w.wsCacheTime key now }

/-- The explicit invalidation block shared by the three write handlers:
delete the categoria key from `worksheet_cache` and
`worksheet_cache_time` (and from nothing else). -/
def evictWs (w : World) (cat : String) : World :=
  { w with wsCache := alErase w.wsCache (cacheKey cat),
           wsCacheTime := alErase w.wsCacheTime (cacheKey cat) }

/-- Valid entry of the flask-caching response cache at time `now`. -/
def respLookup (w : World) (key : String × String) (now : ℕ) : Option PyResp :=
  match w.respCache.lookup key with
  | some (r, exp) => if now < exp then some r else none
  | none => none

/-- GET `/pecas` at time `now`: a fresh cached response is returned as
is; otherwise the handler runs (worksheet lookup, fetch, filter) and the
response is memoized for 10 seconds. -/
def worldGet (w : World) (pagina busca : String) (now : ℕ) : PyResp × World :=
  match respLookup w (pagina, busca) now with
  | some r => (r, w)
  | none =>
    match w.sheets.lookup pagina with
    | none =>
      let r := PyResp.notFound
      (r, { w with respCache := alInsert w.respCache (pagina, busca) (r, now + 10) })
    | some rows =>
      let w1 := wsCacheFetch w pagina now
      let r := get_pecas pagina rows busca
      (r, { w1 with respCache := alInsert w1.respCache (pagina, busca) (r, now + 10) })

/-- POST `/pecas` at time `now`: validate, look the worksheet up (404 when
the categoria names no sheet), allocate the next ID from the ID column
(header cell first), append the row, then run the invalidation block. -/
def worldCreate (w : World) (body : Option ReqBody) (now : ℕ) : PyResp × World :=
  match body with
  | none => (.badRequest, w)
  | some d =>
    if falsyCat d.categoria then (.badRequest, w)
    else
      let cat := d.categoria.getD ""
      match w.sheets.lookup cat with
      | none => (.notFound, w)
      | some rows =>
        let w1 := wsCacheFetch w cat now
        let col := "ID" :: rows.map (fun r => pyStrOf r.idv)
        let next := get_next_id col
        let newRow : Row :=
          { idv := .str next, peca := bodyGet d "peca",
            quantidade := bodyGet d "quantidade", material := bodyGet d "material",
            massa := bodyGet d "massa(g)", valor := bodyGet d "valor($)",
            descricao := bodyGet d "descricao", fornecedor := bodyGet d "fornecedor" }
        let w2 := { w1 with sheets := alInsert w1.sheets cat (rows ++ [newRow]) }
        (.created next, evictWs w2 cat)

/-- Write one updatable field into a record. -/
def setField (r : Row) (c : String) (v : PyVal) : Row :=
  if c = "peca" then { r with peca := v }
  else if c = "quantidade" then { r with quantidade := v }
  else if c = "material" then { r with material := v }
  else if c = "massa(g)" then { r with massa := v }
  else if c = "valor($)" then { r with valor := v }
  else if c = "descricao" then { r with descricao := v }
  else if c = "fornecedor" then { r with fornecedor := v }
  else r

/-- PUT `/pecas/<id>` at time `now`. -/
def worldUpdate (w : World) (body : Option ReqBody) (pecaId : String) (now : ℕ) :
    PyResp × World :=
  match body with
  | none => (.badRequest, w)
  | some d =>
    if falsyCat d.categoria then (.badRequest, w)
    else
      let cat := d.categoria.getD ""
      match w.sheets.lookup cat with
      | none => (.notFound, w)
      | some rows =>
        let w1 := wsCacheFetch w cat now
        match findLinha pecaId rows with
        | none => (.notFound, w1)
        | some li =>
          let i := li - 2
          match rows[i]? with
          | none => (.notFound, w1)
          | some r0 =>
            let r1 := campos.foldl (fun r c =>
              match d.fields.lookup c with
              | some v => setField r c v
              | none => r) r0
            let w2 := { w1 with sheets := alInsert w1.sheets cat (rows.set i r1) }
            (.okMsg, evictWs w2 cat)

/-- DELETE `/pecas/<id>` at time `now`. -/
def worldDelete (w : World) (body : Option ReqBody) (pecaId : String) (now : ℕ) :
    PyResp × World :=
  match body with
  | none => (.badRequest, w)
  | some d =>
    if falsyCat d.categoria then (.badRequest, w)
    else
      let cat := d.categoria.getD ""
      match w.sheets.lookup cat with
      | none => (.notFound, w)
      | some rows =>
        let w1 := wsCacheFetch w cat now
        match findLinha pecaId rows with
        | none => (.notFound, w1)
        | some li =>
          let w2 := { w1 with sheets := alInsert w1.sheets cat (rows.eraseIdx (li - 2)) }
          (.okMsg, evictWs w2 cat)

/-! ## Specification-side definitions

The following definitions are written from the wording of the
specification (and of the frozen claims), independently of the code
shape, to be compared with the embedded functions above. -/

/-- The collection invariant stated by the spec: within one collection,
identifiers are monotonically increasing integers, or all follow a single
prefix-plus-numeric-suffix pattern. -/
def specCollectionInvariant (ids : List String) : Prop :=
  (∃ ns : List ℕ, ids = ns.map natToDecimal ∧ ns.Chain' (· < ·)) ∨
  (∃ p : String, p ≠ "" ∧
    ∀ id ∈ ids, ∃ ds : List Char,
      ds ≠ [] ∧ (∀ c ∈ ds, c.isDigit) ∧ id = p ++ String.mk ds)

/-- The numeric-case computation as the claim words it: parse each
identifier as a float, take the maximum, truncate to integer, add 1,
render as a string. -/
def specNumericNext (ids : List String) : Except PyErr String := do
  let fs ← ids.mapM pyFloat
  let m ← pyMaxPF fs
  let t ← pyIntOfFloat m
  return natToDecimal (t + 1)

/-- The maximum trailing number across the identifiers, as the spec words
it (zero when no identifier ends in digits). -/
def specMaxTrailing (ids : List String) : ℕ :=
  (ids.filterMap trailingNum).foldl max 0

/-- Whether a cell value is a string. -/
def isStrVal : PyVal → Bool
  | .str _ => true
  | .int _ => false

/-- A row whose four searched text fields are strings (the identifier may
be any value: the handler stringifies it). -/
def rowTextTyped (p : Row) : Bool :=
  isStrVal p.peca && isStrVal p.material && isStrVal p.descricao && isStrVal p.fornecedor

/-- The search predicate as the spec words it: the lowercased query is a
substring of at least one of the five searched fields (stringified
identifier, name, material, description, supplier), case-insensitively. -/
def specMatches (busca : String) (p : Row) : Bool :=
  [pyStrOf p.idv, pyStrOf p.peca, pyStrOf p.material,
   pyStrOf p.descricao, pyStrOf p.fornecedor].any
    (fun f => strHasSub (strLower busca) (strLower f))

/-! ## Concrete fixtures used by counterexamples and witnesses -/

/-- A sample all-string row. -/
def exRow : Row :=
  { idv := .str "1", peca := .str "disco", quantidade := .str "2",
    material := .str "aco", massa := .str "100", valor := .str "50",
    descricao := .str "ventilado", fornecedor := .str "acme" }

/-- A row whose material cell is numeric. -/
def exRowNum : Row :=
  { idv := .str "1", peca := .str "disco", quantidade := .str "2",
    material := .int 5, massa := .str "100", valor := .str "50",
    descricao := .str "ventilado", fornecedor := .str "acme" }

/-- A minimal valid create/update/delete body for the freios sheet. -/
def exBody : ReqBody := { categoria := some "freios", fields := [] }

/-- A world holding one freios row and empty caches. -/
def exWorld : World :=
  { sheets := [("freios", [exRow])], wsCache := [], wsCacheTime := [], respCache := [] }

/-- A float represents the natural number `v` exactly: it is finite with
value `v` (as an unreduced fraction `(v * b) / b`). -/
def RepsVal (f : PFloat) (v : ℕ) : Prop :=
  ∃ b : ℕ, 0 < b ∧ f = .finite (v * b) b

/-! ## Small facts about the embedded functions -/

theorem strToList_ne_nil {s : String} (h : s ≠ "") : s.toList ≠ [] := by
  intro hl
  apply h
  cases s with
  | mk data => cases data with
    | nil => rfl
    | cons c cs => simp [String.toList] at hl

theorem pyExistingIds_ne_empty (col : List String) :
    ∀ s ∈ pyExistingIds col, s ≠ "" := by
  intro s hs
  unfold pyExistingIds at hs
  have := List.mem_filter.mp hs
  simpa using this.2

/-- C4: for an empty set of (non-empty) identifier values, the allocator
returns the string "1". -/
theorem getNextId_empty (col : List String) (h : pyExistingIds col = []) :
    get_next_id col = "1" := by
  simp [get_next_id, getNextIdBody, h, pure, Except.pure]

/-- Witness for C4 at a column holding only the header and blank cells. -/
theorem getNextId_empty_witness :
    pyExistingIds ["ID", "", ""] = [] ∧ get_next_id ["ID", "", ""] = "1" :=
  ⟨by decide, getNextId_empty ["ID", "", ""] (by decide)⟩

/-- C9: `get_next_id` never propagates an exception: every run of its
body either succeeds with some string, which is returned, or fails with
some exception, in which case the handler returns "1". -/
theorem getNextId_total (col : List String) :
    (∃ e, getNextIdBody col = .error e ∧ get_next_id col = "1") ∨
    (∃ s, getNextIdBody col = .ok s ∧ get_next_id col = s) := by
  cases h : getNextIdBody col with
  | ok s => exact .inr ⟨s, rfl, by simp [get_next_id, h]⟩
  | error e => exact .inl ⟨e, rfl, by simp [get_next_id, h]⟩

/-- C7: a missing JSON body, or a missing/empty `categoria` field, makes
each of the create, update and delete handlers answer 400 with an empty
external-call trace. -/
theorem handlers_validate_locally (body : Option ReqBody) (col : List String)
    (records : List Row) (pecaId : String)
    (h : body = none ∨ ∃ d, body = some d ∧ falsyCat d.categoria = true) :
    adicionar_peca body col = (.badRequest, []) ∧
    atualizar_peca body pecaId records = (.badRequest, []) ∧
    deletar_peca body pecaId records = (.badRequest, []) := by
  rcases h with rfl | ⟨d, rfl, hd⟩
  · exact ⟨rfl, rfl, rfl⟩
  · simp [adicionar_peca, atualizar_peca, deletar_peca, hd]

/-- Witness for C7 at a body with an empty categoria. -/
theorem handlers_validate_locally_witness :
    adicionar_peca (some { categoria := some "", fields := [] }) ["ID"] = (.badRequest, []) ∧
    atualizar_peca (some { categoria := some "", fields := [] }) "1" [exRow] = (.badRequest, []) ∧
    deletar_peca (some { categoria := some "", fields := [] }) "1" [exRow] = (.badRequest, []) :=
  handlers_validate_locally _ ["ID"] [exRow] "1" (.inr ⟨_, rfl, by decide⟩)

theorem findLinhaAux_eq_none (pecaId : String) (records : List Row)
    (h : ∀ r ∈ records, pyStrOf r.idv ≠ pecaId) :
    ∀ i, findLinhaAux pecaId records i = none := by
  induction records with
  | nil => intro i; rfl
  | cons r rs ih =>
    intro i
    have hr : pyStrOf r.idv ≠ pecaId := h r (.head _)
    simp only [findLinhaAux, hr, if_false]
    exact ih (fun x hx => h x (.tail _ hx)) (i + 1)

/-- C6: when a valid update request names an identifier matching no row,
the handler answers 404 and its external-call trace contains no cell
write — applying it to any worksheet grid changes nothing. -/
theorem update_notFound (d : ReqBody) (pecaId : String) (records : List Row)
    (hcat : falsyCat d.categoria = false)
    (hmiss : ∀ r ∈ records, pyStrOf r.idv ≠ pecaId) :
    (atualizar_peca (some d) pecaId records).1 = .notFound ∧
    ∀ g, applyEffects g (atualizar_peca (some d) pecaId records).2 = g := by
  have hfind : findLinha pecaId records = none := findLinhaAux_eq_none pecaId records hmiss 2
  constructor
  · simp [atualizar_peca, hcat, hfind]
  · intro g
    simp [atualizar_peca, hcat, hfind, applyEffects, applyEffect]

/-- Witness for C6 at a one-row collection and a non-matching id. -/
theorem update_notFound_witness :
    (atualizar_peca (some exBody) "2" [exRow]).1 = .notFound ∧
    ∀ g, applyEffects g (atualizar_peca (some exBody) "2" [exRow]).2 = g :=
  update_notFound exBody "2" [exRow] (by decide) (by decide)

/-- C10: a row with a numeric (non-string) material cell makes the search
filter raise, so a list request with a non-empty query answers the
generic 500 internal error instead of a filtered result. -/
theorem getPecas_nonString_500 :
    rowTextTyped exRowNum = false ∧
    get_pecas "freios" [exRowNum] "zz" = .internalError := by
  constructor
  · decide
  · decide

theorem rowMatches_typed (busca : String) (p : Row) (h : rowTextTyped p = true) :
    rowMatches (strLower busca) p = .ok (specMatches busca p) := by
  rcases p with ⟨i, pe, q, m, ms, vl, de, fo⟩
  cases pe <;> cases m <;> cases de <;> cases fo <;>
    simp only [rowTextTyped, isStrVal, Bool.and_eq_true] at h <;>
    try simp at h
  simp only [rowMatches, specMatches, pyLowerVal, pyStrOf, List.any_cons,
    List.any_nil, bind, Except.bind, pure, Except.pure]
  split_ifs <;> simp_all

theorem filterPecas_typed (busca : String) (rows : List Row)
    (h : ∀ p ∈ rows, rowTextTyped p = true) :
    filterPecas (strLower busca) rows = .ok (rows.filter (specMatches busca)) := by
  induction rows with
  | nil => rfl
  | cons p rows ih =>
    have hp := rowMatches_typed busca p (h p (.head _))
    have hrest := fun q hq => h q (List.Mem.tail _ hq)
    simp [filterPecas, hp, ih hrest, List.filter_cons]

/-- C5: with an empty query the list operation returns every row
unfiltered; with a non-empty query (over rows whose searched text fields
are strings, as the data model stipulates) it returns exactly the rows
the spec-side predicate selects: the lowercased query occurs in one of
the five searched fields, case-insensitively. -/
theorem getPecas_filter (pagina : String) (rows : List Row) (busca : String)
    (hty : busca ≠ "" → ∀ p ∈ rows, rowTextTyped p = true) :
    get_pecas pagina rows busca =
      if busca = "" then .pecasOk pagina rows.length rows
      else .pecasOk pagina (rows.filter (specMatches busca)).length
             (rows.filter (specMatches busca)) := by
  by_cases hb : busca = ""
  · subst hb
    simp [get_pecas, getPecasBody, pure, Except.pure]
  · simp [get_pecas, getPecasBody, filterPecas_typed busca rows (hty hb), hb]

/-- Witness for C5 on a one-row collection with a matching query. -/
theorem getPecas_filter_witness :
    get_pecas "freios" [exRow] "ac" =
      if ("ac" : String) = "" then .pecasOk "freios" [exRow].length [exRow]
      else .pecasOk "freios" ([exRow].filter (specMatches "ac")).length
             ([exRow].filter (specMatches "ac")) :=
  getPecas_filter "freios" [exRow] "ac" (fun _ => by decide)

theorem alErase_lookup {α β : Type} [DecidableEq α] [BEq α] [LawfulBEq α]
    (l : List (α × β)) (k : α) : (alErase l k).lookup k = none := by
  induction l with
  | nil => rfl
  | cons kv l ih =>
    by_cases h : kv.1 = k
    · simpa [alErase, List.filter_cons, h] using ih
    · have hbeq : (k == kv.1) = false := beq_eq_false_iff_ne.mpr (Ne.symm h)
      simpa [alErase, List.filter_cons, h, List.lookup, hbeq] using ih

theorem wsCacheFetch_respCache (w : World) (cat : String) (now : ℕ) :
    (wsCacheFetch w cat now).respCache = w.respCache := by
  cases hx : List.lookup (cacheKey cat) w.wsCache <;>
    cases hy : List.lookup (cacheKey cat) w.wsCacheTime <;>
    simp [wsCacheFetch, hx, hy] <;>
    split <;> rfl

/-- C8 (amended): a successful create, update or delete evicts the
worksheet-handle cache entries (handle and timestamp) of the affected
categoria; the flask response cache is left untouched and only expires by
its own TTL. -/
theorem mutation_evicts_handle_cache (w : World) (d : ReqBody) (pecaId : String)
    (now : ℕ) (hc : falsyCat d.categoria = false) :
    (∀ nxt w', worldCreate w (some d) now = (.created nxt, w') →
       w'.wsCache.lookup (cacheKey (d.categoria.getD "")) = none ∧
       w'.wsCacheTime.lookup (cacheKey (d.categoria.getD "")) = none ∧
       w'.respCache = w.respCache) ∧
    (∀ w', worldUpdate w (some d) pecaId now = (.okMsg, w') →
       w'.wsCache.lookup (cacheKey (d.categoria.getD "")) = none ∧
       w'.wsCacheTime.lookup (cacheKey (d.categoria.getD "")) = none ∧
       w'.respCache = w.respCache) ∧
    (∀ w', worldDelete w (some d) pecaId now = (.okMsg, w') →
       w'.wsCache.lookup (cacheKey (d.categoria.getD "")) = none ∧
       w'.wsCacheTime.lookup (cacheKey (d.categoria.getD "")) = none ∧
       w'.respCache = w.respCache) := by
  refine ⟨?_, ?_, ?_⟩
  · intro nxt w' hw
    simp only [worldCreate, hc, Bool.false_eq_true, if_false] at hw
    split at hw
    · simp at hw
    · rw [Prod.mk.injEq] at hw
      obtain ⟨-, hw2⟩ := hw
      subst hw2
      exact ⟨alErase_lookup _ _, alErase_lookup _ _,
        by simpa [evictWs] using wsCacheFetch_respCache w (d.categoria.getD "") now⟩
  · intro w' hw
    simp only [worldUpdate, hc, Bool.false_eq_true, if_false] at hw
    split at hw
    · simp at hw
    · split at hw
      · simp at hw
      · split at hw
        · simp at hw
        · rw [Prod.mk.injEq] at hw
          obtain ⟨-, hw2⟩ := hw
          subst hw2
          exact ⟨alErase_lookup _ _, alErase_lookup _ _,
            by simpa [evictWs] using wsCacheFetch_respCache w (d.categoria.getD "") now⟩
  · intro w' hw
    simp only [worldDelete, hc, Bool.false_eq_true, if_false] at hw
    split at hw
    · simp at hw
    · split at hw
      · simp at hw
      · rw [Prod.mk.injEq] at hw
        obtain ⟨-, hw2⟩ := hw
        subst hw2
        exact ⟨alErase_lookup _ _, alErase_lookup _ _,
          by simpa [evictWs] using wsCacheFetch_respCache w (d.categoria.getD "") now⟩

/-- Witness for C8 (amended) on a concrete create. -/
theorem mutation_evicts_handle_cache_witness :
    (worldCreate exWorld (some exBody) 0).2.wsCache.lookup (cacheKey "freios") = none ∧
    (worldCreate exWorld (some exBody) 0).2.wsCacheTime.lookup (cacheKey "freios") = none ∧
    (worldCreate exWorld (some exBody) 0).2.respCache = exWorld.respCache :=
  (mutation_evicts_handle_cache exWorld exBody "1" 0 (by decide)).1 "2"
    (worldCreate exWorld (some exBody) 0).2
    (Prod.ext_iff.mpr ⟨by decide, rfl⟩)

/-- C8 (counterexample): the claim that a successful create evicts all
cached data of the collection — response cache included, so that a
subsequent list observes the mutation — is false: after a GET primes the
response cache, a create leaves the response-cache entry in place, and a
GET within the TTL still answers the stale pre-mutation response (total 1)
although the sheet now has 2 rows. -/
theorem cache_invalidation_counterexample :
    (¬ ∀ (w : World) (d : ReqBody) (now : ℕ) (rows : List Row),
        falsyCat d.categoria = false →
        w.sheets.lookup (d.categoria.getD "") = some rows →
        ∀ nxt w', worldCreate w (some d) now = (.created nxt, w') →
          w'.wsCache.lookup (cacheKey (d.categoria.getD "")) = none ∧
          ∀ busca, w'.respCache.lookup (d.categoria.getD "", busca) = none) ∧
    (worldGet (worldCreate (worldGet exWorld "freios" "" 0).2 (some exBody) 5).2
        "freios" "" 6).1 = .pecasOk "freios" 1 [exRow] ∧
    ((worldCreate (worldGet exWorld "freios" "" 0).2 (some exBody) 5).2.sheets.lookup
        "freios").map List.length = some 2 := by
  refine ⟨?_, by decide, by decide⟩
  intro h
  have h2 := h (worldGet exWorld "freios" "" 0).2 exBody 5 [exRow] (by decide) (by decide)
  have h3 := (h2 "2" (worldCreate (worldGet exWorld "freios" "" 0).2 (some exBody) 5).2
      (Prod.ext_iff.mpr ⟨by decide, rfl⟩)).2 ""
  exact absurd h3 (by decide)

/-! ## Decimal rendering: correctness of `natToDecimal` and `pad3` -/

theorem digitVal_digitChar {d : ℕ} (h : d < 10) : digitVal (digitChar d) = d := by
  interval_cases d <;> decide

theorem isDigit_digitChar {d : ℕ} (h : d < 10) : (digitChar d).isDigit = true := by
  interval_cases d <;> decide

theorem foldl_digits (l : List Char) (a : ℕ) :
    l.foldl (fun a c => 10 * a + digitVal c) a = a * 10 ^ l.length + digitsToNat l := by
  induction l generalizing a with
  | nil => simp [digitsToNat]
  | cons c l ih =>
    simp only [List.foldl_cons, List.length_cons, digitsToNat]
    rw [ih, ih]
    ring

theorem digitsToNat_append (l1 l2 : List Char) :
    digitsToNat (l1 ++ l2) = digitsToNat l1 * 10 ^ l2.length + digitsToNat l2 := by
  simp only [digitsToNat, List.foldl_append]
  exact foldl_digits l2 _

theorem natDigitsAux_spec :
    ∀ f n, n < 10 ^ f → 0 < f →
      (∀ c ∈ natDigitsAux f n, c.isDigit = true) ∧
      digitsToNat (natDigitsAux f n) = n ∧ natDigitsAux f n ≠ [] := by
  intro f
  induction f with
  | zero => intro n _ h; omega
  | succ f ih =>
    intro n hn _
    by_cases h10 : n < 10
    · simp only [natDigitsAux, h10, if_true]
      refine ⟨?_, ?_, by simp⟩
      · intro c hc
        simp only [List.mem_singleton] at hc
        subst hc
        exact isDigit_digitChar h10
      · simp [digitsToNat, digitVal_digitChar h10]
    · have hf : 0 < f := by
        rcases Nat.eq_zero_or_pos f with hf0 | hf0
        · subst hf0; simp at hn; omega
        · exact hf0
      have hdiv : n / 10 < 10 ^ f := by
        rw [Nat.div_lt_iff_lt_mul (by norm_num)]
        calc n < 10 ^ (f + 1) := hn
        _ = 10 ^ f * 10 := by ring
      obtain ⟨ha, hv, _⟩ := ih (n / 10) hdiv hf
      simp only [natDigitsAux, h10, if_false]
      refine ⟨?_, ?_, by simp⟩
      · intro c hc
        rcases List.mem_append.mp hc with h | h
        · exact ha c h
        · simp only [List.mem_singleton] at h
          subst h
          exact isDigit_digitChar (Nat.mod_lt _ (by norm_num))
      · rw [digitsToNat_append, hv]
        simp [digitsToNat, digitVal_digitChar (Nat.mod_lt n (by norm_num) : n % 10 < 10)]
        omega

theorem natToDecimal_spec (n : ℕ) :
    (∀ c ∈ (natToDecimal n).toList, c.isDigit = true) ∧
    digitsToNat (natToDecimal n).toList = n ∧ (natToDecimal n).toList ≠ [] := by
  have hlt : n < 10 ^ (n + 1) :=
    lt_of_lt_of_le (Nat.lt_pow_self (by norm_num) n)
      (Nat.pow_le_pow_right (by norm_num) (Nat.le_succ n))
  simpa [natToDecimal, String.toList] using natDigitsAux_spec (n + 1) n hlt (Nat.succ_pos n)

theorem dtn_replicate_zero (k : ℕ) : digitsToNat (List.replicate k '0') = 0 := by
  induction k with
  | zero => rfl
  | succ k ih =>
    simp only [List.replicate_succ, digitsToNat, List.foldl_cons]
    simpa [digitsToNat, show digitVal '0' = 0 from by decide] using ih

theorem pad3_spec (n : ℕ) :
    (∀ c ∈ (pad3 n).toList, c.isDigit = true) ∧
    digitsToNat (pad3 n).toList = n ∧ (pad3 n).toList ≠ [] := by
  obtain ⟨hd, hv, hne⟩ := natToDecimal_spec n
  have htl : (pad3 n).toList
      = List.replicate (3 - (natToDecimal n).length) '0' ++ (natToDecimal n).toList := by
    simp [pad3, String.toList]
  refine ⟨?_, ?_, ?_⟩
  · intro c hc
    rw [htl] at hc
    rcases List.mem_append.mp hc with h | h
    · rw [List.eq_of_mem_replicate h]; decide
    · exact hd c h
  · rw [htl, digitsToNat_append, dtn_replicate_zero, hv]
    ring
  · rw [htl]
    intro h
    exact hne (List.append_eq_nil.mp h).2

/-! ## Exactness of the float model on small integers -/

theorem natBitsAux_zero (f : ℕ) : natBitsAux f 0 = 0 := by
  cases f <;> rfl

theorem natBitsAux_spec :
    ∀ f n, 0 < n → n ≤ f →
      0 < natBitsAux f n ∧ 2 ^ (natBitsAux f n - 1) ≤ n ∧ n < 2 ^ natBitsAux f n := by
  intro f
  induction f with
  | zero => intro n h1 h2; omega
  | succ f ih =>
    intro n h1 h2
    have hn0 : ¬(n = 0) := by omega
    simp only [natBitsAux, hn0, if_false]
    by_cases h2n : n < 2
    · have hn1 : n = 1 := by omega
      subst hn1
      norm_num [natBitsAux_zero]
    · have hd1 : 0 < n / 2 := by omega
      have hd2 : n / 2 ≤ f := by omega
      obtain ⟨hp, hlo, hhi⟩ := ih (n / 2) hd1 hd2
      set b := natBitsAux f (n / 2) with hb
      have h2b : 2 ^ b = 2 * 2 ^ (b - 1) := by
        conv_lhs => rw [show b = (b - 1) + 1 by omega]
        rw [pow_succ]
        ring
      have h2b1 : 2 ^ (b + 1) = 2 * 2 ^ b := by
        rw [pow_succ]
        ring
      refine ⟨by omega, ?_, ?_⟩ <;> (try simp only [Nat.add_sub_cancel]) <;> omega

theorem natBits_spec (n : ℕ) (h : 0 < n) :
    0 < natBits n ∧ 2 ^ (natBits n - 1) ≤ n ∧ n < 2 ^ natBits n :=
  natBitsAux_spec n n h le_rfl

theorem natBits_le {n k : ℕ} (h0 : 0 < n) (h : n < 2 ^ k) : natBits n ≤ k := by
  obtain ⟨hp, hlo, hhi⟩ := natBits_spec n h0
  by_contra hc
  push_neg at hc
  have : 2 ^ k ≤ 2 ^ (natBits n - 1) := Nat.pow_le_pow_right (by norm_num) (by omega)
  omega

theorem floorLog2_nat {n : ℕ} (h : 0 < n) : floorLog2 n 1 = (natBits n : ℤ) - 1 := by
  obtain ⟨hp, hlo, _⟩ := natBits_spec n h
  have hb1 : natBits 1 = 1 := by decide
  simp only [floorLog2, hb1, Nat.cast_one]
  have hc : (0 : ℤ) ≤ (natBits n : ℤ) - 1 := by omega
  rw [if_pos hc]
  have hct : ((natBits n : ℤ) - 1).toNat = natBits n - 1 := by omega
  have hdec : decide (n < 2 ^ ((natBits n : ℤ) - 1).toNat * 1) = false := by
    rw [hct]
    simp only [mul_one, decide_eq_false_iff_not, not_lt]
    exact hlo
  rw [hdec]
  simp

theorem rndHalfEven_den1 (x : ℕ) : rndHalfEven x 1 = x := by
  simp [rndHalfEven, Nat.mod_one]

theorem roundB64_nat {n : ℕ} (h53 : n < 2 ^ 53) :
    ∃ b, 0 < b ∧ roundB64 n 1 = .finite (n * b) b := by
  rcases Nat.eq_zero_or_pos n with h0 | h0
  · subst h0
    exact ⟨1, one_pos, by decide⟩
  · obtain ⟨hp, hlo, hhi⟩ := natBits_spec n h0
    have hB53 : natBits n ≤ 53 := natBits_le h0 h53
    have hk : floorLog2 n 1 = (natBits n : ℤ) - 1 := floorLog2_nat h0
    have hn0 : ¬(n = 0) := by omega
    set B := natBits n with hB
    simp only [roundB64, hn0, if_false, hk]
    rw [if_neg (by omega : ¬((B : ℤ) - 1 < -1022))]
    have hz : (0 : ℤ) ≤ 52 - ((B : ℤ) - 1) := by omega
    rw [if_pos hz, if_pos hz]
    have hzt : (52 - ((B : ℤ) - 1)).toNat = 53 - B := by omega
    rw [hzt, rndHalfEven_den1]
    by_cases hBe : B = 53
    · rw [if_pos (by omega : (0:ℤ) ≤ (B : ℤ) - 1 - 52),
          if_pos (by omega : (0:ℤ) ≤ (B : ℤ) - 1 - 52)]
      refine ⟨1, one_pos, ?_⟩
      rw [if_neg ?_]
      · congr 1
        rw [show ((B : ℤ) - 1 - 52).toNat = 0 by omega, hBe]
        norm_num
      · rw [show ((B : ℤ) - 1 - 52).toNat = 0 by omega, hBe]
        norm_num
        omega
    · have hneg : ¬((0:ℤ) ≤ (B : ℤ) - 1 - 52) := by omega
      rw [if_neg hneg, if_neg hneg]
      refine ⟨2 ^ (53 - B), pow_pos (by norm_num) _, ?_⟩
      have hinf : ¬(2 ^ 1024 * 2 ^ (53 - B) ≤ n * 2 ^ (53 - B)) := by
        have hx : 0 < 2 ^ (53 - B) := pow_pos (by norm_num) _
        intro hcon
        rw [Nat.mul_comm (2 ^ 1024), Nat.mul_comm n] at hcon
        have h1 := Nat.le_of_mul_le_mul_left hcon hx
        have h2 : n < 2 ^ 1024 :=
          lt_of_lt_of_le h53 (Nat.pow_le_pow_right (by norm_num) (by norm_num))
        omega
      rw [if_neg hinf]

theorem takeWhile_all {α : Type} (p : α → Bool) :
    ∀ l : List α, (∀ c ∈ l, p c = true) → l.takeWhile p = l ∧ l.dropWhile p = [] := by
  intro l
  induction l with
  | nil => simp
  | cons c l ih =>
    intro h
    obtain ⟨h1, h2⟩ := ih (fun x hx => h x (.tail _ hx))
    simp [List.takeWhile_cons, List.dropWhile_cons, h c (.head _), h1, h2]

theorem toList_eq_data (s : String) : s.toList = s.data := rfl

theorem pyFloat_digits {s : String} (hne : s.toList ≠ [])
    (hd : ∀ c ∈ s.toList, c.isDigit = true) (h53 : digitsToNat s.toList < 2 ^ 53) :
    ∃ b, 0 < b ∧ pyFloat s = .ok (.finite (digitsToNat s.toList * b) b) := by
  have hne' : s.data ≠ [] := hne
  have hnd : ∀ c ∈ s.data, ¬(c = '.') := by
    intro c hc he
    subst he
    exact absurd (hd _ hc) (by decide)
  have hfil : List.filter (fun c => decide (c = '.')) s.data = [] :=
    List.filter_eq_nil_iff.mpr (fun a ha => by simpa using hnd a ha)
  have hfil2 : List.filter Char.isDigit s.data = s.data := List.filter_eq_self.mpr hd
  obtain ⟨htake, hdrop⟩ :=
    takeWhile_all (fun c => c ≠ '.') s.data (fun c hc => by simpa using hnd c hc)
  have hpf : pyFloat s = .ok (roundB64 (digitsToNat s.toList) 1) := by
    simp only [pyFloat, toList_eq_data]
    rw [hfil, hfil2, htake, hdrop]
    rw [if_pos ⟨by simp, by simpa [List.isEmpty_iff] using hne'⟩]
    simp
  obtain ⟨b, hb, hr⟩ := roundB64_nat h53
  exact ⟨b, hb, by rw [hpf, hr]⟩

theorem pfLt_reps {f g : PFloat} {v w : ℕ} (hf : RepsVal f v) (hg : RepsVal g w) :
    pfLt f g = decide (v < w) := by
  obtain ⟨b, hb, rfl⟩ := hf
  obtain ⟨b', hb', rfl⟩ := hg
  have key : (v * b * b' < w * b' * b) ↔ v < w := by
    rw [mul_assoc, mul_assoc, mul_comm b' b]
    exact mul_lt_mul_right (by positivity)
  simp [pfLt, decide_eq_decide, key]

theorem pyMax_fold_reps :
    ∀ (fs : List PFloat) (vs : List ℕ), List.Forall₂ RepsVal fs vs →
    ∀ (f0 : PFloat) (v0 : ℕ), RepsVal f0 v0 →
      RepsVal (fs.foldl (fun acc x => if pfLt acc x then x else acc) f0)
        (vs.foldl max v0) := by
  intro fs vs hall
  induction hall with
  | nil => intro f0 v0 h; simpa using h
  | @cons f v fs' vs' hf hrest ih =>
    intro f0 v0 h0
    simp only [List.foldl_cons]
    rw [pfLt_reps h0 hf]
    by_cases hlt : v0 < v
    · rw [if_pos (by simpa using hlt), max_eq_right (le_of_lt hlt)]
      exact ih f v hf
    · rw [if_neg (by simpa using hlt), max_eq_left (by omega)]
      exact ih f0 v0 h0

theorem foldl_max_le (vs : List ℕ) :
    ∀ a, a ≤ vs.foldl max a ∧ ∀ v ∈ vs, v ≤ vs.foldl max a := by
  induction vs with
  | nil => intro a; simp
  | cons v vs ih =>
    intro a
    obtain ⟨h1, h2⟩ := ih (max a v)
    simp only [List.foldl_cons]
    refine ⟨le_trans (le_max_left a v) h1, ?_⟩
    intro x hx
    rcases List.mem_cons.mp hx with rfl | hx
    · exact le_trans (le_max_right a x) h1
    · exact h2 x hx

theorem mapM_pyFloat_digits :
    ∀ ids : List String,
      (∀ s ∈ ids, s.toList ≠ [] ∧ (∀ c ∈ s.toList, c.isDigit = true) ∧
        digitsToNat s.toList < 2 ^ 53) →
      ∃ fs, ids.mapM pyFloat = .ok fs ∧
        List.Forall₂ RepsVal fs (ids.map (fun s => digitsToNat s.toList)) := by
  intro ids
  induction ids with
  | nil => exact fun _ => ⟨[], rfl, List.Forall₂.nil⟩
  | cons s ids ih =>
    intro h
    obtain ⟨hne, hd, h53⟩ := h s (.head _)
    obtain ⟨b, hb, hpf⟩ := pyFloat_digits hne hd h53
    obtain ⟨fs, hmap, hrep⟩ := ih (fun x hx => h x (.tail _ hx))
    refine ⟨.finite (digitsToNat s.toList * b) b :: fs, ?_, ?_⟩
    · rw [List.mapM_cons, hpf, hmap]
      rfl
    · exact List.Forall₂.cons ⟨b, hb, rfl⟩ hrep

theorem pyIntOfFloat_reps {f : PFloat} {v : ℕ} (h : RepsVal f v) :
    pyIntOfFloat f = .ok v := by
  obtain ⟨b, hb, rfl⟩ := h
  simp [pyIntOfFloat, Nat.mul_div_cancel v hb]

theorem strippedIsDigit_of_digits {s : String} (hne : s.toList ≠ [])
    (hd : ∀ c ∈ s.toList, c.isDigit = true) : strippedIsDigit s = true := by
  have hne' : s.data ≠ [] := hne
  have hfil : List.filter (fun c => decide (c ≠ '.')) s.data = s.data :=
    List.filter_eq_self.mpr (fun c hc => by
      simp only [decide_eq_true_eq]
      intro he
      subst he
      exact absurd (hd _ hc) (by decide))
  simp only [strippedIsDigit, stripDots, pyIsDigit, toList_eq_data]
  rw [hfil]
  simp [List.isEmpty_iff, hne', List.all_eq_true]
  exact hd

theorem getNextId_numeric_digits (col : List String)
    (hne : pyExistingIds col ≠ [])
    (hd : ∀ s ∈ pyExistingIds col, ∀ c ∈ s.toList, c.isDigit = true)
    (h53 : ∀ s ∈ pyExistingIds col, digitsToNat s.toList < 2 ^ 53) :
    get_next_id col =
      natToDecimal
        (((pyExistingIds col).map (fun s => digitsToNat s.toList)).foldl max 0 + 1) := by
  have hnil : ∀ s ∈ pyExistingIds col, s.toList ≠ [] :=
    fun s hs => strToList_ne_nil (pyExistingIds_ne_empty col s hs)
  have hsd : ∀ s ∈ pyExistingIds col, strippedIsDigit s = true :=
    fun s hs => strippedIsDigit_of_digits (hnil s hs) (hd s hs)
  have hall : (pyExistingIds col).all strippedIsDigit = true := List.all_eq_true.mpr hsd
  have hfil : (pyExistingIds col).filter strippedIsDigit = pyExistingIds col :=
    List.filter_eq_self.mpr hsd
  obtain ⟨fs, hmap, hrep⟩ := mapM_pyFloat_digits (pyExistingIds col)
    (fun s hs => ⟨hnil s hs, hd s hs, h53 s hs⟩)
  obtain ⟨s0, rest, hcol⟩ : ∃ s0 rest, pyExistingIds col = s0 :: rest := by
    cases h : pyExistingIds col with
    | nil => exact absurd h hne
    | cons a b => exact ⟨a, b, rfl⟩
  rw [hcol] at hmap hrep hall hfil
  rw [List.map_cons] at hrep
  rcases hrep with _ | ⟨h0, ht⟩
  rename_i f0 fs'
  have hmax := pyMax_fold_reps fs' (rest.map (fun s => digitsToNat s.toList)) ht f0
    (digitsToNat s0.toList) h0
  have hint := pyIntOfFloat_reps hmax
  have hbody : getNextIdBody col =
      .ok (natToDecimal
        ((rest.map (fun s => digitsToNat s.toList)).foldl max (digitsToNat s0.toList) + 1)) := by
    simp only [getNextIdBody, hcol, List.isEmpty_cons, Bool.false_eq_true, if_false, hall,
      if_true, hfil, hmap, pyMaxPF, hint]
  have hfold : ((s0 :: rest).map (fun s => digitsToNat s.toList)).foldl max 0
      = (rest.map (fun s => digitsToNat s.toList)).foldl max (digitsToNat s0.toList) := by
    simp [List.foldl_cons, Nat.zero_max]
  rw [hcol, hfold]
  simp [get_next_id, hbody]

/-! ## The alphanumeric branch never returns an existing identifier -/

theorem maxnum_foldl_eq (ids : List String) :
    ∀ a : ℕ,
      ids.foldl (fun acc s => match trailingNum s with
        | some n => if acc < n then n else acc
        | none => acc) a
      = (ids.filterMap trailingNum).foldl max a := by
  induction ids with
  | nil => intro a; rfl
  | cons s ids ih =>
    intro a
    simp only [List.foldl_cons, List.filterMap_cons]
    cases h : trailingNum s with
    | none => simp [h, ih]
    | some n =>
      have hmx : (if a < n then n else a) = max a n := by split <;> omega
      simp [h, hmx, ih]

theorem generate_alpha_closed (ids : List String) :
    generate_next_alphanumeric_id ids =
      if specMaxTrailing ids = 0 then "FRS-001"
      else ((ids.findSome? pfxMatch).getD "FRS") ++ pad3 (specMaxTrailing ids + 1) := by
  unfold generate_next_alphanumeric_id specMaxTrailing
  rw [maxnum_foldl_eq ids 0]

theorem takeWhile_append_all {p : Char → Bool} :
    ∀ (l1 l2 : List Char), (∀ c ∈ l1, p c = true) →
      (l1 ++ l2).takeWhile p = l1 ++ l2.takeWhile p := by
  intro l1
  induction l1 with
  | nil => simp
  | cons c l ih =>
    intro l2 h
    simp [List.takeWhile_cons, h c (.head _), ih l2 (fun x hx => h x (.tail _ hx))]

theorem trailingRun_append (u v : String) (hne : v.data ≠ [])
    (hd : ∀ c ∈ v.data, c.isDigit = true) :
    trailingRun (u ++ v) = (u.data.reverse.takeWhile Char.isDigit).reverse ++ v.data := by
  unfold trailingRun
  rw [toList_eq_data, String.data_append, List.reverse_append,
    takeWhile_append_all v.data.reverse u.data.reverse
      (fun c hc => hd c (List.mem_reverse.mp hc)),
    List.reverse_append, List.reverse_reverse]

theorem trailingNum_le_spec (ids : List String) (s : String) (hs : s ∈ ids) :
    (trailingNum s).getD 0 ≤ specMaxTrailing ids := by
  unfold specMaxTrailing
  cases h : trailingNum s with
  | none => simp
  | some n =>
    have hn : n ∈ ids.filterMap trailingNum := List.mem_filterMap.mpr ⟨s, hs, h⟩
    simpa using (foldl_max_le (ids.filterMap trailingNum) 0).2 n hn

theorem generate_alpha_not_mem (ids : List String) :
    generate_next_alphanumeric_id ids ∉ ids := by
  intro hmem
  rw [generate_alpha_closed] at hmem
  by_cases hM : specMaxTrailing ids = 0
  · rw [if_pos hM] at hmem
    have hb := trailingNum_le_spec ids _ hmem
    rw [show trailingNum "FRS-001" = some 1 from by decide] at hb
    simp [hM] at hb
  · rw [if_neg hM] at hmem
    have hb := trailingNum_le_spec ids _ hmem
    obtain ⟨hpd, hpv, hpne⟩ := pad3_spec (specMaxTrailing ids + 1)
    have hpd' : ∀ c ∈ (pad3 (specMaxTrailing ids + 1)).data, c.isDigit = true := hpd
    have hrun := trailingRun_append ((ids.findSome? pfxMatch).getD "FRS")
      (pad3 (specMaxTrailing ids + 1)) hpne hpd'
    have hvne : trailingRun ((ids.findSome? pfxMatch).getD "FRS"
        ++ pad3 (specMaxTrailing ids + 1)) ≠ [] := by
      rw [hrun]
      intro h
      exact hpne (List.append_eq_nil.mp h).2
    have htn : trailingNum ((ids.findSome? pfxMatch).getD "FRS"
        ++ pad3 (specMaxTrailing ids + 1))
        = some (digitsToNat (trailingRun ((ids.findSome? pfxMatch).getD "FRS"
            ++ pad3 (specMaxTrailing ids + 1)))) := by
      unfold trailingNum
      rw [if_neg (by simpa [List.isEmpty_iff] using hvne)]
    have hge : specMaxTrailing ids + 1
        ≤ digitsToNat (trailingRun ((ids.findSome? pfxMatch).getD "FRS"
            ++ pad3 (specMaxTrailing ids + 1))) := by
      rw [toList_eq_data] at hpv
      rw [hrun, digitsToNat_append, hpv]
      omega
    rw [htn] at hb
    simp at hb
    omega

/-! ## The numeric branch under the collection invariant -/

theorem getNextId_numeric_shape (col : List String)
    (hne : pyExistingIds col ≠ [])
    (hall : (pyExistingIds col).all strippedIsDigit = true) :
    get_next_id col = "1" ∨ ∃ t : ℕ, get_next_id col = natToDecimal (t + 1) := by
  have hie : (pyExistingIds col).isEmpty = false := by
    cases h : (pyExistingIds col).isEmpty
    · rfl
    · exact absurd (List.isEmpty_iff.mp h) hne
  unfold get_next_id getNextIdBody
  simp only [hie, Bool.false_eq_true, if_false, hall, if_true]
  cases hm : ((pyExistingIds col).filter strippedIsDigit).mapM pyFloat with
  | error e => left; rfl
  | ok fs =>
    cases hmx : pyMaxPF fs with
    | error e => left; simp only [hmx]
    | ok m =>
      cases hi : pyIntOfFloat m with
      | error e => left; simp only [hmx, hi]
      | ok i => right; exact ⟨i, by simp only [hmx, hi]⟩

theorem natToDecimal_no_dot (n : ℕ) : '.' ∉ (natToDecimal n).toList := by
  intro h
  exact absurd ((natToDecimal_spec n).1 '.' h) (by decide)

theorem invariant_all_dots (ids : List String)
    (hinv : specCollectionInvariant ids)
    (s0 : String) (hs0 : s0 ∈ ids) (hdot : '.' ∈ s0.toList) :
    ∀ s ∈ ids, '.' ∈ s.toList := by
  rcases hinv with ⟨ns, hids, -⟩ | ⟨p, -, hpat⟩
  · exfalso
    subst hids
    obtain ⟨n, -, rfl⟩ := List.mem_map.mp hs0
    exact natToDecimal_no_dot n hdot
  · obtain ⟨ds, -, hdd, hs0eq⟩ := hpat s0 hs0
    have hdp : '.' ∈ p.data := by
      subst hs0eq
      rw [toList_eq_data, String.data_append] at hdot
      rcases List.mem_append.mp hdot with h | h
      · exact h
      · exact absurd (hdd '.' h) (by decide)
    intro s hs
    obtain ⟨ds', -, -, hseq⟩ := hpat s hs
    subst hseq
    rw [toList_eq_data, String.data_append]
    exact List.mem_append.mpr (.inl hdp)

theorem digits_of_stripped_no_dot {s : String} (hsd : strippedIsDigit s = true)
    (hnd : '.' ∉ s.toList) : s.toList ≠ [] ∧ ∀ c ∈ s.toList, c.isDigit = true := by
  have hfil : s.data.filter (fun c => decide (c ≠ '.')) = s.data :=
    List.filter_eq_self.mpr (fun c hc => by
      simp only [decide_eq_true_eq]
      intro he
      subst he
      exact hnd hc)
  simp only [strippedIsDigit, stripDots, pyIsDigit, toList_eq_data] at hsd
  rw [hfil] at hsd
  simp only [Bool.and_eq_true, Bool.not_eq_true', List.all_eq_true] at hsd
  exact ⟨by simpa [List.isEmpty_iff] using hsd.1, hsd.2⟩

/-- C1 (amended): under the collection invariant, and provided every
purely-digit identifier denotes a value below 2^53 (so that its float
parse is exact), `get_next_id` returns an identifier distinct from every
existing one. -/
theorem allocator_distinct_amended (col : List String)
    (hinv : specCollectionInvariant (pyExistingIds col))
    (hsmall : ∀ s ∈ pyExistingIds col,
      (∀ c ∈ s.toList, c.isDigit = true) → digitsToNat s.toList < 2 ^ 53) :
    get_next_id col ∉ pyExistingIds col := by
  by_cases hne : pyExistingIds col = []
  · rw [hne]
    exact List.not_mem_nil _
  · by_cases hall : (pyExistingIds col).all strippedIsDigit = true
    · by_cases hdots : ∃ s ∈ pyExistingIds col, '.' ∈ s.toList
      · obtain ⟨s0, hs0, hdot⟩ := hdots
        have halldots := invariant_all_dots _ hinv s0 hs0 hdot
        intro hmem
        have hdm : '.' ∈ (get_next_id col).toList := halldots _ hmem
        rcases getNextId_numeric_shape col hne hall with h1 | ⟨t, h1⟩
        · rw [h1] at hdm
          exact absurd hdm (by decide)
        · rw [h1] at hdm
          exact natToDecimal_no_dot _ hdm
      · push_neg at hdots
        have hsdall := List.all_eq_true.mp hall
        have hd : ∀ s ∈ pyExistingIds col, ∀ c ∈ s.toList, c.isDigit = true :=
          fun s hs => (digits_of_stripped_no_dot (hsdall s hs) (hdots s hs)).2
        have h53 : ∀ s ∈ pyExistingIds col, digitsToNat s.toList < 2 ^ 53 :=
          fun s hs => hsmall s hs (hd s hs)
        rw [getNextId_numeric_digits col hne hd h53]
        intro hmem
        have hv := (natToDecimal_spec
          (((pyExistingIds col).map (fun s => digitsToNat s.toList)).foldl max 0 + 1)).2.1
        have hmm : digitsToNat (natToDecimal
            (((pyExistingIds col).map (fun s => digitsToNat s.toList)).foldl max 0 + 1)).toList
            ∈ (pyExistingIds col).map (fun s => digitsToNat s.toList) :=
          List.mem_map_of_mem _ hmem
        have hle := (foldl_max_le ((pyExistingIds col).map (fun s => digitsToNat s.toList)) 0).2
          _ hmm
        omega
    · have hie : (pyExistingIds col).isEmpty = false := by
        cases h : (pyExistingIds col).isEmpty
        · rfl
        · exact absurd (List.isEmpty_iff.mp h) hne
      have hallf : (pyExistingIds col).all strippedIsDigit = false := by
        cases h : (pyExistingIds col).all strippedIsDigit
        · rfl
        · exact absurd h hall
      have hres : get_next_id col = generate_next_alphanumeric_id (pyExistingIds col) := by
        unfold get_next_id getNextIdBody
        simp only [hie, hallf, Bool.false_eq_true, if_false]
      rw [hres]
      exact generate_alpha_not_mem _

/-- Witness for C1 (amended) on a small increasing-integer collection. -/
theorem allocator_distinct_witness :
    specCollectionInvariant (pyExistingIds ["1", "2"]) ∧
    get_next_id ["1", "2"] ∉ pyExistingIds ["1", "2"] := by
  have hinv : specCollectionInvariant (pyExistingIds ["1", "2"]) :=
    Or.inl ⟨[1, 2], by decide,
      List.chain'_cons.mpr ⟨by norm_num, List.chain'_singleton _⟩⟩
  exact ⟨hinv, allocator_distinct_amended _ hinv (by decide)⟩

/-- C1 (counterexample): the distinctness contract fails as stated.  The
singleton collection ["9007199254740993"] is a set of monotonically
increasing integers, but 2^53 + 1 is not representable in binary64: the
allocator parses it to 2^53, truncates and adds 1, and returns the very
identifier already present. -/
theorem allocator_distinct_counterexample :
    ¬ (∀ col : List String, specCollectionInvariant (pyExistingIds col) →
        get_next_id col ∉ pyExistingIds col) := by
  intro h
  exact h ["9007199254740993"]
    (Or.inl ⟨[9007199254740993], by decide, List.chain'_singleton _⟩) (by decide)

/-- C2 (counterexample): the numeric case does not always compute
`str(max + 1)`.  The identifier "1.2.3" is classified numeric by the
dot-stripping digit test, but `float()` raises on it; the claimed
parse/max/truncate computation has no value and the allocator falls back
to "1" through its exception handler. -/
theorem numeric_case_counterexample :
    ¬ (∀ col : List String, pyExistingIds col ≠ [] →
        (∀ s ∈ pyExistingIds col, strippedIsDigit s = true) →
        ∃ r, specNumericNext (pyExistingIds col) = .ok r ∧ get_next_id col = r) := by
  intro h
  obtain ⟨r, hr, -⟩ := h ["1.2.3"] (by decide) (by decide)
  rw [show specNumericNext (pyExistingIds ["1.2.3"]) = .error .valueError from rfl] at hr
  exact Except.noConfusion hr

theorem except_bind_ok {e a b : Type} (x : a) (f : a → Except e b) :
    (Except.ok x : Except e a) >>= f = f x := rfl

theorem except_bind_error {e a b : Type} (x : e) (f : a → Except e b) :
    (Except.error x : Except e a) >>= f = .error x := rfl

theorem specNumericNext_eq (ids : List String) :
    specNumericNext ids =
      match ids.mapM pyFloat with
      | .error e => .error e
      | .ok numeric_ids =>
        match pyMaxPF numeric_ids with
        | .error e => .error e
        | .ok m =>
          match pyIntOfFloat m with
          | .error e => .error e
          | .ok i => .ok (natToDecimal (i + 1)) := by
  simp only [specNumericNext]
  cases hm : ids.mapM pyFloat with
  | error e => rfl
  | ok fs =>
    rw [except_bind_ok]
    dsimp only
    cases hmx : pyMaxPF fs with
    | error e => rfl
    | ok m =>
      rw [except_bind_ok]
      dsimp only
      cases hi : pyIntOfFloat m with
      | error e => rfl
      | ok i => rfl

theorem getNextIdBody_numeric (col : List String)
    (hie : (pyExistingIds col).isEmpty = false)
    (hallb : (pyExistingIds col).all strippedIsDigit = true)
    (hfil : (pyExistingIds col).filter strippedIsDigit = pyExistingIds col) :
    getNextIdBody col = specNumericNext (pyExistingIds col) := by
  rw [specNumericNext_eq]
  unfold getNextIdBody
  simp only [hie, Bool.false_eq_true, if_false, hallb, if_true, hfil]

/-- C2 (amended): on a non-empty set of identifiers classified numeric,
whenever the spec-side computation — parse each identifier as a float,
take the maximum, truncate, add 1, render — succeeds with value `r`,
`get_next_id` returns exactly `r`. -/
theorem numeric_case_amended (col : List String) (r : String)
    (hne : pyExistingIds col ≠ [])
    (hall : ∀ s ∈ pyExistingIds col, strippedIsDigit s = true)
    (hok : specNumericNext (pyExistingIds col) = .ok r) :
    get_next_id col = r := by
  have hie : (pyExistingIds col).isEmpty = false := by
    cases h : (pyExistingIds col).isEmpty
    · rfl
    · exact absurd (List.isEmpty_iff.mp h) hne
  have hallb : (pyExistingIds col).all strippedIsDigit = true := List.all_eq_true.mpr hall
  have hfil : (pyExistingIds col).filter strippedIsDigit = pyExistingIds col :=
    List.filter_eq_self.mpr hall
  unfold get_next_id
  rw [getNextIdBody_numeric col hie hallb hfil, hok]

/-- Witness for C2 (amended) on a mixed decimal collection. -/
theorem numeric_case_witness :
    specNumericNext (pyExistingIds ["2.5", "10"]) = .ok "11" ∧
    get_next_id ["2.5", "10"] = "11" :=
  ⟨rfl, numeric_case_amended ["2.5", "10"] "11" (by decide) (by decide) rfl⟩

/-- C3 (counterexample): on ["A0"] an identifier does end in a digit run,
yet the allocator does not return prefix + zero-padded(max+1) = "A001":
the code conflates "no trailing digits" with "maximum trailing number is
zero" and returns the fallback "FRS-001". -/
theorem alpha_case_counterexample :
    ¬ (∀ col : List String, pyExistingIds col ≠ [] →
        (pyExistingIds col).all strippedIsDigit = false →
        ((∀ s ∈ pyExistingIds col, trailingNum s = none) → get_next_id col = "FRS-001") ∧
        ((∃ s ∈ pyExistingIds col, trailingNum s ≠ none) →
          ∃ p, (pyExistingIds col).findSome? pfxMatch = some p ∧
            get_next_id col = p ++ pad3 (specMaxTrailing (pyExistingIds col) + 1))) := by
  intro h
  obtain ⟨p, hp, hr⟩ := (h ["A0"] (by decide) (by decide)).2 ⟨"A0", by decide, by decide⟩
  rw [show (pyExistingIds ["A0"]).findSome? pfxMatch = some "A" from by decide] at hp
  rw [show get_next_id ["A0"] = "FRS-001" from by decide] at hr
  obtain rfl := Option.some.inj hp
  exact absurd hr (by decide)

/-- C3 (amended): on a non-empty set not classified numeric, the
allocator returns "FRS-001" exactly when the maximum trailing number is
zero (no identifier ends in digits, or every trailing run denotes 0);
otherwise it returns the group-1 prefix of the first identifier matching
the prefix-then-digits pattern (default "FRS" when none matches) followed
by max+1 zero-padded to at least 3 digits. -/
theorem alpha_case_amended (col : List String)
    (hne : pyExistingIds col ≠ [])
    (hnum : (pyExistingIds col).all strippedIsDigit = false) :
    get_next_id col =
      if specMaxTrailing (pyExistingIds col) = 0 then "FRS-001"
      else ((pyExistingIds col).findSome? pfxMatch).getD "FRS"
        ++ pad3 (specMaxTrailing (pyExistingIds col) + 1) := by
  have hie : (pyExistingIds col).isEmpty = false := by
    cases h : (pyExistingIds col).isEmpty
    · rfl
    · exact absurd (List.isEmpty_iff.mp h) hne
  have hres : get_next_id col = generate_next_alphanumeric_id (pyExistingIds col) := by
    unfold get_next_id getNextIdBody
    simp only [hie, hnum, Bool.false_eq_true, if_false]
  rw [hres, generate_alpha_closed]

/-- Witness for C3 (amended) on a shared-prefix collection. -/
theorem alpha_case_witness :
    (pyExistingIds ["BRK-007", "BRK-010"]).all strippedIsDigit = false ∧
    get_next_id ["BRK-007", "BRK-010"] =
      (if specMaxTrailing (pyExistingIds ["BRK-007", "BRK-010"]) = 0 then "FRS-001"
       else ((pyExistingIds ["BRK-007", "BRK-010"]).findSome? pfxMatch).getD "FRS"
         ++ pad3 (specMaxTrailing (pyExistingIds ["BRK-007", "BRK-010"]) + 1)) :=
  ⟨by decide, alpha_case_amended ["BRK-007", "BRK-010"] (by decide) (by decide)⟩
